import Mathlib

/-!
Verification development for the skate-trick video cropper core
(`app/video_processor.py`, `app/job_store.py`, `app/tasks.py`).

Times and scores are modelled as rationals (`ℚ`): the Python code uses
floats only for timestamps (`frame_idx / fps`), buffers and thresholds,
and every claim under study concerns ordering and exact arithmetic on
those quantities, not rounding behaviour.

The per-landmark average displacement `_average_landmark_movement`
computes Euclidean norms (square roots), which have no exact rational
representation; the detector is therefore parameterised over the
movement metric `mdist : List Landmark → List Landmark → ℚ`, and every
theorem about the detector is proved for *all* metrics, which includes
the real one.
-/

namespace SkateCropper

/-- A pose landmark `(x, y, z)` as produced per frame. -/
abbrev Landmark : Type := ℚ × ℚ × ℚ

/-- A detected segment `(start, end)` in seconds. -/
abbrev Seg : Type := ℚ × ℚ

/-! ### `VideoProcessor._merge_close_segments` (video_processor.py lines 156-174) -/

/-- Inner loop of `_merge_close_segments`: `cs, ce` are
`current_start, current_end`, the remaining list is `segments[1:]`. -/
def mergeLoop (g : ℚ) (cs ce : ℚ) : List Seg → List Seg
  | [] => [(cs, ce)]
  | (ns, ne) :: rest =>
      if ns - ce < g then mergeLoop g cs ne rest
      else (cs, ce) :: mergeLoop g ns ne rest

/-- `VideoProcessor._merge_close_segments(segments, gap_threshold=1.0)`. -/
def mergeCloseSegments (segments : List Seg) (g : ℚ := 1) : List Seg :=
  match segments with
  | [] => []
  | (cs, ce) :: rest => mergeLoop g cs ce rest

/-! ### Detector state machine (`detect_human_segments`, lines 77-154) -/

/-- The loop-carried state of `detect_human_segments`. -/
structure DetectState where
  segments : List Seg
  currentSegmentStart : Option ℚ
  movementStartTime : Option ℚ
  movementFrames : ℕ
  stationaryFrames : ℕ
  previousLandmarks : Option (List Landmark)
deriving Repr, DecidableEq

/-- Initial loop state (lines 94-101). -/
def initState : DetectState :=
  { segments := [], currentSegmentStart := none, movementStartTime := none,
    movementFrames := 0, stationaryFrames := 0, previousLandmarks := none }

/-- Detection parameters of `detect_human_segments`. -/
structure DetectParams where
  movementThreshold : ℚ
  minMovingFrames : ℕ
  maxStationaryFrames : ℕ
deriving Repr, DecidableEq

/-- Python truthiness of `previous_landmarks` (`None` and `[]` are falsy). -/
def optTruthy : Option (List Landmark) → Bool
  | none => false
  | some l => !l.isEmpty

/-- Lines 115-128: classify one frame.  The input frame is
`results.pose_landmarks` (`some` landmark list or `none`); the result is
`(is_moving, previous_landmarks)` after the frame.  `mdist` stands for
`_average_landmark_movement`. -/
def classifyFrame (mdist : List Landmark → List Landmark → ℚ) (threshold : ℚ)
    (prev : Option (List Landmark)) (frame : Option (List Landmark)) :
    Bool × Option (List Landmark) :=
  match frame with
  | some cur =>
      let score : ℚ := if optTruthy prev then mdist cur (prev.getD []) else 0
      (decide (threshold ≤ score), some cur)
  | none => (false, none)

/-- Lines 130-146: the finite-state-machine update for one frame, given
the frame's `is_moving` classification and `current_time`. -/
def updateFSM (minMoving maxStationary : ℕ) (currentTime : ℚ) (isMoving : Bool)
    (s : DetectState) : DetectState :=
  if isMoving then
    let movementFrames := s.movementFrames + 1
    let movementStartTime :=
      match s.movementStartTime with
      | none => some currentTime
      | some t => some t
    let currentSegmentStart :=
      if s.currentSegmentStart = none ∧ minMoving ≤ movementFrames then
        movementStartTime
      else s.currentSegmentStart
    { s with stationaryFrames := 0, movementFrames := movementFrames,
             movementStartTime := movementStartTime,
             currentSegmentStart := currentSegmentStart }
  else
    match s.currentSegmentStart with
    | some st =>
        if maxStationary ≤ s.stationaryFrames + 1 then
          { s with segments := s.segments ++ [(st, currentTime)],
                   currentSegmentStart := none, movementStartTime := none,
                   movementFrames := 0, stationaryFrames := 0 }
        else
          { s with movementFrames := 0, movementStartTime := none,
                   stationaryFrames := s.stationaryFrames + 1 }
    | none =>
        { s with movementFrames := 0, movementStartTime := none }

/-- One iteration of the `while cap.isOpened()` loop body for frame
`frameIdx` (classification then FSM update; `current_time = frame_idx / fps`). -/
def processFrame (mdist : List Landmark → List Landmark → ℚ) (p : DetectParams)
    (fps : ℚ) (frameIdx : ℕ) (frame : Option (List Landmark))
    (s : DetectState) : DetectState :=
  let c := classifyFrame mdist p.movementThreshold s.previousLandmarks frame
  updateFSM p.minMovingFrames p.maxStationaryFrames ((frameIdx : ℚ) / fps) c.1
    { s with previousLandmarks := c.2 }

/-- The frame loop of `detect_human_segments` starting at `frameIdx`. -/
def detectLoop (mdist : List Landmark → List Landmark → ℚ) (p : DetectParams)
    (fps : ℚ) : List (Option (List Landmark)) → ℕ → DetectState → DetectState
  | [], _, s => s
  | f :: rest, i, s => detectLoop mdist p fps rest (i + 1) (processFrame mdist p fps i f s)

/-- `VideoProcessor.detect_human_segments` (lines 77-154) over the frame
stream of per-frame pose results.  `none` models the `ValueError` raised
when `fps ≤ 0`; `frame_count` is the number of frames of the stream. -/
def detect_human_segments (mdist : List Landmark → List Landmark → ℚ)
    (p : DetectParams) (fps : ℚ) (frames : List (Option (List Landmark))) :
    Option (List Seg) :=
  if fps ≤ 0 then none
  else
    let duration : ℚ := (frames.length : ℚ) / fps
    let s := detectLoop mdist p fps frames 0 initState
    let segs := s.segments ++
      (match s.currentSegmentStart with
       | some st => [(st, duration)]
       | none => [])
    some (mergeCloseSegments segs 1)

/-! ### Chain predicates on segment lists -/

/-- Every segment starts strictly after `t`, is well-formed (`start < end`)
and the list is strictly increasing without overlap. -/
def SegsFrom (t : ℚ) : List Seg → Prop
  | [] => True
  | (a, b) :: rest => t < a ∧ a < b ∧ SegsFrom b rest

/-- Well-formed strictly increasing non-overlapping segment list. -/
def SegsOK : List Seg → Prop
  | [] => True
  | (a, b) :: rest => a < b ∧ SegsFrom b rest

/-- Output shape of the merge pass: well-formed segments with a gap of at
least `g` between consecutive segments. -/
def GapChain (g : ℚ) : List Seg → Prop
  | [] => True
  | [(a, b)] => a < b
  | (a, b) :: (c, d) :: rest => a < b ∧ b + g ≤ c ∧ GapChain g ((c, d) :: rest)

/-- All segment ends lie strictly below `u`. -/
def endsBelow (u : ℚ) (l : List Seg) : Prop := ∀ q ∈ l, q.2 < u

/-- Loop invariant of `detect_human_segments` after `i` frames. -/
def Inv (fps : ℚ) (i : ℕ) (s : DetectState) : Prop :=
  SegsOK s.segments ∧ endsBelow ((i : ℚ) / fps) s.segments ∧
  (∀ t, s.currentSegmentStart = some t → endsBelow t s.segments ∧ t < (i : ℚ) / fps) ∧
  (∀ t, s.movementStartTime = some t → endsBelow t s.segments ∧ t < (i : ℚ) / fps)

/-! ### Classification traces (for the backdating and "never moving" claims) -/

/-- The `is_moving` classification of every frame of a stream, threaded
through `previous_landmarks` exactly as in lines 115-128. -/
def movingTrace (mdist : List Landmark → List Landmark → ℚ) (threshold : ℚ) :
    Option (List Landmark) → List (Option (List Landmark)) → List Bool
  | _, [] => []
  | prev, f :: rest =>
      let c := classifyFrame mdist threshold prev f
      c.1 :: movingTrace mdist threshold c.2 rest

/-- `true` iff every frame of the run classifies as moving, starting from
`previous_landmarks = prev`. -/
def allMovingB (mdist : List Landmark → List Landmark → ℚ) (threshold : ℚ)
    (prev : Option (List Landmark)) (run : List (Option (List Landmark))) : Bool :=
  (movingTrace mdist threshold prev run).all id

/-! ### `VideoProcessor.extract_and_compile` (lines 194-236): the pure
windowing/planning part.  The actual decode/encode is I/O performed by
moviepy; what the claims concern is which buffered, clamped windows are
kept and in which order. -/

/-- Lines 212-222: buffer, clamp, and drop windows shorter than 1 second. -/
def planWindows (duration bufferBefore bufferAfter : ℚ) (segments : List Seg) :
    List Seg :=
  (segments.map fun s => (max 0 (s.1 - bufferBefore), min duration (s.2 + bufferAfter))).filter
    fun w => !decide (w.2 - w.1 < 1)

/-- `extract_and_compile` at the plan level: `none` when there are no input
segments (line 206) or no surviving subclips (line 224), otherwise the kept
windows in order, which the code concatenates into the output file. -/
def extract_and_compile (duration bufferBefore bufferAfter : ℚ)
    (segments : List Seg) : Option (List Seg) :=
  if segments.isEmpty then none
  else
    let subclips := planWindows duration bufferBefore bufferAfter segments
    if subclips.isEmpty then none else some subclips

/-! ### `JobStore` (job_store.py).  Python dicts are modelled as ordered
association lists with unique-key update semantics (`d[k] = v` replaces in
place when `k` is present, else appends); the Redis keyspace is another
association list from key strings to job dicts.  JSON round-tripping
through `_save`/`get_job` is the identity on this model. -/

/-- `d.get(k)` / `d[k]` lookup on a Python dict modelled as an ordered
association list (keys are unique for dicts built by this model). -/
def dictGet {α : Type} (d : List (String × α)) (k : String) : Option α :=
  (d.find? fun kv => kv.1 = k).map (·.2)

/-- `d[k] = v` on a Python dict: replace the value in place when the key is
present (order preserved), append otherwise. -/
def dictSet {α : Type} (d : List (String × α)) (k : String) (v : α) :
    List (String × α) :=
  match d with
  | [] => [(k, v)]
  | (k0, v0) :: rest =>
      if k0 = k then (k, v) :: rest else (k0, v0) :: dictSet rest k v

/-- `for key, value in fields.items(): if value is not None: d[key] = value`
(lines 47-49 and 65-67): apply a `**fields` keyword dict. -/
def applyFields {α : Type} (d : List (String × α)) :
    List (String × Option α) → List (String × α)
  | [] => d
  | (_, none) :: rest => applyFields d rest
  | (k, some v) :: rest => applyFields (dictSet d k v) rest

/-- A per-file item record: a string-valued Python dict. -/
abbrev Item : Type := List (String × String)

/-- A value stored in a job dict: a string, a number, or the item list. -/
inductive JVal where
  | s : String → JVal
  | n : ℚ → JVal
  | arr : List Item → JVal
deriving Repr, DecidableEq

/-- A job record: a Python dict with heterogeneous values. -/
abbrev JDict : Type := List (String × JVal)

/-- `job["items"]` as an item list (always `.arr` for jobs written by this
store; the default is never reached on well-formed records). -/
def jitems (d : JDict) : List Item :=
  match dictGet d "items" with
  | some (.arr l) => l
  | _ => []

/-- The Redis keyspace shared by workers and API. -/
abbrev Store : Type := List (String × JDict)

/-- `JobStore._key` (lines 19-20). -/
def jkey (job_id : String) : String := "job:" ++ job_id

/-- Number of items whose `status` equals `v` (the `sum(1 for i in items if
i.get("status") == ...)` counters of lines 80-83). -/
def countStatus (items : List Item) (v : String) : ℕ :=
  (items.filter fun i => dictGet i "status" = some v).length

/-- Message of line 86. -/
def msgAllCompleted (c t : ℕ) : String := s!"All files completed ({c}/{t})."

/-- Message of line 88. -/
def msgFailed (f c t : ℕ) : String := s!"{f} file(s) failed ({c}/{t} succeeded)."

/-- Message of line 90. -/
def msgProcessing (p t c : ℕ) : String := s!"Processing {p}/{t}. Completed {c}."

/-- Message of line 91. -/
def msgQueued (q t : ℕ) : String := s!"Waiting to process {q}/{t}."

/-- `JobStore._derive_batch_status` (lines 75-91). -/
def deriveBatchStatus (items : List Item) : String × String :=
  if items.isEmpty then ("failed", "No files provided.")
  else
    let total := items.length
    let completed := countStatus items "completed"
    let failed := countStatus items "failed"
    let processing := countStatus items "processing"
    let queued := countStatus items "queued"
    if completed = total then
      ("completed", msgAllCompleted completed total)
    else if 0 < failed ∧ processing = 0 ∧ queued = 0 then
      ("failed", msgFailed failed completed total)
    else if 0 < processing then
      ("processing", msgProcessing processing total completed)
    else
      ("queued", msgQueued queued total)

/-- `JobStore.create_job` (lines 22-31); `now` is `time.time()`. -/
def create_job (st : Store) (job_id : String) (items : List Item) (now : ℚ) :
    Store × JDict :=
  let job : JDict :=
    [("job_id", .s job_id), ("status", .s "queued"), ("message", .s "Queued"),
     ("items", .arr items), ("created_at", .n now)]
  (dictSet st (jkey job_id) job, job)

/-- `JobStore.get_job` (lines 33-37). -/
def get_job (st : Store) (job_id : String) : Option JDict :=
  dictGet st (jkey job_id)

/-- Lines 44-51: patch the first item whose `file_id` matches; returns the
new item list and the `updated` flag. -/
def patchFirst (items : List Item) (file_id : String)
    (fields : List (String × Option String)) : List Item × Bool :=
  match items with
  | [] => ([], false)
  | item :: rest =>
      if dictGet item "file_id" = some file_id then
        (applyFields item fields :: rest, true)
      else
        let r := patchFirst rest file_id fields
        (item :: r.1, r.2)

/-- The pure compute phase of `update_item` between its read (`get_job`,
line 40) and its write (`_save`, line 57): lines 44-56 applied to the
snapshot `job`.  `none` is the early `return None` when no item matched. -/
def updateItemCompute (job : JDict) (file_id : String)
    (fields : List (String × Option String)) : Option JDict :=
  let r := patchFirst (jitems job) file_id fields
  if r.2 then
    let sm := deriveBatchStatus r.1
    some (dictSet (dictSet (dictSet job "items" (.arr r.1)) "status" (.s sm.1))
      "message" (.s sm.2))
  else none

/-- `JobStore.update_item` (lines 39-58): get, patch the matching item,
re-derive the aggregate status, save.  Returns the new keyspace and the
returned job (`none` models returning Python `None`, with the keyspace
untouched). -/
def update_item (st : Store) (job_id file_id : String)
    (fields : List (String × Option String)) : Store × Option JDict :=
  match get_job st job_id with
  | none => (st, none)
  | some job =>
      match updateItemCompute job file_id fields with
      | some job' => (dictSet st (jkey job_id) job', some job')
      | none => (st, none)

/-- `JobStore.update_job` (lines 60-73): merge-patch at the job level;
re-derives status/message only when `"items"` is among the provided
keyword names (whatever its value). -/
def update_job (st : Store) (job_id : String)
    (fields : List (String × Option JVal)) : Store × Option JDict :=
  match get_job st job_id with
  | none => (st, none)
  | some job =>
      let job1 := applyFields job fields
      let job2 :=
        if fields.any fun kv => kv.1 = "items" then
          let sm := deriveBatchStatus (jitems job1)
          dictSet (dictSet job1 "status" (.s sm.1)) "message" (.s sm.2)
        else job1
      (dictSet st (jkey job_id) job2, some job2)

/-! ### `process_video_file` (tasks.py lines 13-89).  The external
collaborators (ffmpeg prepare, the detector run over the real video, the
moviepy compile) are parameters: `Except.error e` models an exception
with description `e` raised inside the corresponding step, `.ok` its
normal return (`.ok none` for `extract_and_compile` returning `None`).
The `finally` block only deletes scratch files (I/O) and is outside the
job-record state modelled here. -/

def process_video_file (st : Store) (job_id file_id : String)
    (prepareRes : Except String String)
    (detectRes : Except String (List Seg))
    (compileRes : Except String (Option String)) : Store :=
  let st1 := (update_item st job_id file_id
      [("status", some "processing"), ("message", some "Preparing video...")]).1
  match prepareRes with
  | .error e =>
      (update_item st1 job_id file_id
        [("status", some "failed"), ("message", some e)]).1
  | .ok _ =>
    let st2 := (update_item st1 job_id file_id
        [("message", some "Detecting moving humans...")]).1
    match detectRes with
    | .error e =>
        (update_item st2 job_id file_id
          [("status", some "failed"), ("message", some e)]).1
    | .ok segments =>
      if segments.isEmpty then
        (update_item st2 job_id file_id
          [("status", some "failed"), ("message", some "No moving humans detected.")]).1
      else
        let st3 := (update_item st2 job_id file_id
            [("message", some s!"Found {segments.length} segments. Compiling...")]).1
        match compileRes with
        | .error e =>
            (update_item st3 job_id file_id
              [("status", some "failed"), ("message", some e)]).1
        | .ok none =>
            (update_item st3 job_id file_id
              [("status", some "failed"), ("message", some "Failed to compile video.")]).1
        | .ok (some result_path) =>
            (update_item st3 job_id file_id
              [("status", some "completed"), ("message", some "Processing complete!"),
               ("download_url", some s!"/api/download/{job_id}/{file_id}"),
               ("result_path", some result_path)]).1

/-! ## Lemmas about the merge pass -/

theorem mergeLoop_spec (g : ℚ) : ∀ (rest : List Seg) (cs ce : ℚ), cs < ce →
    SegsFrom ce rest →
    ∃ e t, mergeLoop g cs ce rest = (cs, e) :: t ∧ ce ≤ e ∧ GapChain g ((cs, e) :: t)
  | [], cs, ce, h, _ => ⟨ce, [], rfl, le_refl _, h⟩
  | (ns, ne) :: rest, cs, ce, h, hf => by
      obtain ⟨hce, hns, hrest⟩ := hf
      by_cases hg : ns - ce < g
      · obtain ⟨e, t, heq, hle, hchain⟩ :=
          mergeLoop_spec g rest cs ne (lt_trans h (lt_trans hce hns)) hrest
        refine ⟨e, t, ?_, ?_, hchain⟩
        · simpa [mergeLoop, hg] using heq
        · exact le_trans (le_of_lt (lt_trans hce hns)) hle
      · obtain ⟨e, t, heq, hle, hchain⟩ := mergeLoop_spec g rest ns ne hns hrest
        refine ⟨ce, (ns, e) :: t, ?_, le_refl _, ?_⟩
        · simp [mergeLoop, hg, heq]
        · exact ⟨h, by linarith [not_lt.mp hg], hchain⟩

theorem mergeClose_gapChain (g : ℚ) (l : List Seg) (h : SegsOK l) :
    GapChain g (mergeCloseSegments l g) := by
  match l with
  | [] => trivial
  | (cs, ce) :: rest =>
      obtain ⟨hc, hf⟩ := h
      obtain ⟨e, t, heq, _, hchain⟩ := mergeLoop_spec g rest cs ce hc hf
      simpa [mergeCloseSegments, heq] using hchain

theorem mergeLoop_id (g : ℚ) : ∀ (rest : List Seg) (cs ce : ℚ),
    GapChain g ((cs, ce) :: rest) → mergeLoop g cs ce rest = (cs, ce) :: rest
  | [], _, _, _ => rfl
  | (ns, ne) :: rest, cs, ce, h => by
      obtain ⟨h1, h2, h3⟩ := h
      have hg : ¬ ns - ce < g := by linarith
      simp [mergeLoop, hg, mergeLoop_id g rest ns ne h3]

theorem mergeClose_id (g : ℚ) (l : List Seg) (h : GapChain g l) :
    mergeCloseSegments l g = l := by
  match l with
  | [] => rfl
  | (cs, ce) :: rest => exact mergeLoop_id g rest cs ce h

theorem gapChain_mem_lt (g : ℚ) : ∀ (l : List Seg), GapChain g l → ∀ s ∈ l, s.1 < s.2
  | [] => by intro _ s hs; simp at hs
  | [(a, b)] => by
      intro h s hs
      simp only [List.mem_singleton] at hs
      subst hs; exact h
  | (a, b) :: (c, d) :: rest => by
      intro h s hs
      obtain ⟨h1, _, h3⟩ := h
      rcases List.mem_cons.mp hs with rfl | hs
      · exact h1
      · exact gapChain_mem_lt g ((c, d) :: rest) h3 s hs

theorem gapChain_tail (g : ℚ) : ∀ (a b : ℚ) (l : List Seg),
    GapChain g ((a, b) :: l) → GapChain g l
  | _, _, [], _ => trivial
  | _, _, (_, _) :: _, h => h.2.2

theorem gapChain_tail_bound (g : ℚ) (hg : 0 < g) : ∀ (a b : ℚ) (l : List Seg),
    GapChain g ((a, b) :: l) → ∀ s ∈ l, b + g ≤ s.1 ∧ b + g ≤ s.2
  | _, _, [], _, s, hs => absurd hs (by simp)
  | a, b, (c, d) :: rest, h, s, hs => by
      obtain ⟨h1, h2, h3⟩ := h
      have hcd : c < d := gapChain_mem_lt g ((c, d) :: rest) h3 (c, d) (by simp)
      rcases List.mem_cons.mp hs with rfl | hs
      · exact ⟨h2, by linarith⟩
      · have hb := gapChain_tail_bound g hg c d rest h3 s hs
        exact ⟨by linarith [hb.1], by linarith [hb.2]⟩

theorem gapChain_pairwise (g : ℚ) (hg : 0 < g) : ∀ (l : List Seg), GapChain g l →
    List.Pairwise (fun s t : Seg => s.1 < t.1 ∧ s.2 + g ≤ t.1) l
  | [], _ => List.Pairwise.nil
  | (a, b) :: rest, h => by
      have hab : a < b := gapChain_mem_lt g ((a, b) :: rest) h (a, b) (by simp)
      refine List.Pairwise.cons ?_ (gapChain_pairwise g hg rest (gapChain_tail g a b rest h))
      intro s hs
      have hb := gapChain_tail_bound g hg a b rest h s hs
      exact ⟨by linarith [hb.1], hb.1⟩

/-! ## Lemmas about the detector state machine -/

theorem segsFrom_append (w u : ℚ) : ∀ (l : List Seg) (v : ℚ), SegsFrom v l →
    (∀ q ∈ l, q.2 < w) → v < w → w < u → SegsFrom v (l ++ [(w, u)])
  | [], _, _, _, hvw, hwu => ⟨hvw, hwu, trivial⟩
  | (a, b) :: rest, v, h, hb, _, hwu => by
      obtain ⟨h1, h2, h3⟩ := h
      refine ⟨h1, h2, segsFrom_append w u rest b h3 ?_ ?_ hwu⟩
      · exact fun q hq => hb q (List.mem_cons_of_mem _ hq)
      · exact hb (a, b) (List.mem_cons_self _ _)

theorem segsOK_append (w u : ℚ) : ∀ (l : List Seg), SegsOK l →
    (∀ q ∈ l, q.2 < w) → w < u → SegsOK (l ++ [(w, u)])
  | [], _, _, hwu => ⟨hwu, trivial⟩
  | (a, b) :: rest, h, hb, hwu => by
      obtain ⟨h1, h2⟩ := h
      exact ⟨h1, segsFrom_append w u rest b h2
        (fun q hq => hb q (List.mem_cons_of_mem _ hq))
        (hb (a, b) (List.mem_cons_self _ _)) hwu⟩

theorem time_lt_succ (fps : ℚ) (hfps : 0 < fps) (i : ℕ) :
    (i : ℚ) / fps < ((i + 1 : ℕ) : ℚ) / fps := by
  rw [div_lt_div_iff_of_pos_right hfps]
  push_cast
  linarith

theorem updateFSM_inv (minM maxS : ℕ) (fps : ℚ) (hfps : 0 < fps) (i : ℕ) (m : Bool)
    (s : DetectState) (h : Inv fps i s) :
    Inv fps (i + 1) (updateFSM minM maxS ((i : ℚ) / fps) m s) := by
  obtain ⟨hok, hend, hcss, hmst⟩ := h
  have hstep := time_lt_succ fps hfps i
  cases m with
  | true =>
      simp only [updateFSM, if_true]
      refine ⟨hok, ?_, ?_, ?_⟩
      · exact fun q hq => lt_trans (hend q hq) hstep
      · intro t ht
        simp only at ht
        split at ht
        · cases hm : s.movementStartTime with
          | none =>
              rw [hm] at ht
              simp only [Option.some.injEq] at ht
              subst ht
              exact ⟨hend, hstep⟩
          | some t0 =>
              rw [hm] at ht
              simp only [Option.some.injEq] at ht
              subst ht
              obtain ⟨he, hlt⟩ := hmst t0 hm
              exact ⟨he, lt_trans hlt hstep⟩
        · obtain ⟨he, hlt⟩ := hcss t ht
          exact ⟨he, lt_trans hlt hstep⟩
      · intro t ht
        simp only at ht
        cases hm : s.movementStartTime with
        | none =>
            rw [hm] at ht
            simp only [Option.some.injEq] at ht
            subst ht
            exact ⟨hend, hstep⟩
        | some t0 =>
            rw [hm] at ht
            simp only [Option.some.injEq] at ht
            subst ht
            obtain ⟨he, hlt⟩ := hmst t0 hm
            exact ⟨he, lt_trans hlt hstep⟩
  | false =>
      simp only [updateFSM, Bool.false_eq_true, if_false]
      cases hc : s.currentSegmentStart with
      | none =>
          refine ⟨hok, ?_, ?_, ?_⟩
          · exact fun q hq => lt_trans (hend q hq) hstep
          · intro t ht
            simp only [hc] at ht
            exact Option.noConfusion ht
          · intro t ht
            simp only at ht
            cases ht
      | some w =>
          obtain ⟨hew, hwlt⟩ := hcss w hc
          by_cases hclose : maxS ≤ s.stationaryFrames + 1
          · simp only [if_pos hclose]
            refine ⟨?_, ?_, ?_, ?_⟩
            · exact segsOK_append w ((i : ℚ) / fps) s.segments hok hew hwlt
            · intro q hq
              rcases List.mem_append.mp hq with hq | hq
              · exact lt_trans (hend q hq) hstep
              · simp only [List.mem_singleton] at hq
                subst hq
                exact hstep
            · intro t ht; cases ht
            · intro t ht; cases ht
          · simp only [if_neg hclose]
            refine ⟨hok, ?_, ?_, ?_⟩
            · exact fun q hq => lt_trans (hend q hq) hstep
            · intro t ht
              simp only [hc] at ht
              cases Option.some.inj ht
              exact ⟨hew, lt_trans hwlt hstep⟩
            · intro t ht; cases ht

theorem processFrame_inv (d : List Landmark → List Landmark → ℚ) (p : DetectParams)
    (fps : ℚ) (hfps : 0 < fps) (i : ℕ) (f : Option (List Landmark))
    (s : DetectState) (h : Inv fps i s) :
    Inv fps (i + 1) (processFrame d p fps i f s) :=
  updateFSM_inv p.minMovingFrames p.maxStationaryFrames fps hfps i
    (classifyFrame d p.movementThreshold s.previousLandmarks f).1
    { s with previousLandmarks := (classifyFrame d p.movementThreshold s.previousLandmarks f).2 }
    h

theorem detectLoop_inv (d : List Landmark → List Landmark → ℚ) (p : DetectParams)
    (fps : ℚ) (hfps : 0 < fps) :
    ∀ (frames : List (Option (List Landmark))) (i : ℕ) (s : DetectState),
    Inv fps i s → Inv fps (i + frames.length) (detectLoop d p fps frames i s)
  | [], i, s, h => by simpa using h
  | f :: rest, i, s, h => by
      have h2 := detectLoop_inv d p fps hfps rest (i + 1) (processFrame d p fps i f s)
        (processFrame_inv d p fps hfps i f s h)
      have harith : i + 1 + rest.length = i + (f :: rest).length := by
        simp [List.length_cons]; omega
      rw [harith] at h2
      exact h2

theorem initState_inv (fps : ℚ) : Inv fps 0 initState := by
  refine ⟨trivial, ?_, ?_, ?_⟩
  · intro q hq; simp [initState] at hq
  · intro t ht; simp [initState] at ht
  · intro t ht; simp [initState] at ht

/-- C1: For every input FrameSignal sequence and every parameter setting, the
segment list returned by `detect_human_segments` is sorted ascending by start
time, pairwise non-overlapping with a gap of at least the merge threshold
(1.0 second) between any two consecutive segments, and re-running the merge
step on this output changes nothing. -/
theorem detect_segments_sorted_disjoint_merge_idempotent
    (d : List Landmark → List Landmark → ℚ) (p : DetectParams) (fps : ℚ)
    (frames : List (Option (List Landmark))) (out : List Seg)
    (h : detect_human_segments d p fps frames = some out) :
    List.Pairwise (fun s t : Seg => s.1 < t.1 ∧ s.2 + 1 ≤ t.1) out ∧
    (∀ s ∈ out, s.1 < s.2) ∧ mergeCloseSegments out 1 = out := by
  unfold detect_human_segments at h
  by_cases hfps : fps ≤ 0
  · simp [hfps] at h
  · have hpos : 0 < fps := lt_of_not_le hfps
    simp only [if_neg hfps, Option.some.injEq] at h
    have hinv := detectLoop_inv d p fps hpos frames 0 initState (initState_inv fps)
    set sfin := detectLoop d p fps frames 0 initState with hsf
    obtain ⟨hok, hend, hcss, _⟩ := hinv
    have hcast : ((0 + frames.length : ℕ) : ℚ) = (frames.length : ℚ) := by push_cast; ring
    have hsegsOK : SegsOK (sfin.segments ++
        (match sfin.currentSegmentStart with
         | some w => [(w, (frames.length : ℚ) / fps)]
         | none => [])) := by
      cases hc : sfin.currentSegmentStart with
      | none => simpa using hok
      | some w =>
          obtain ⟨hew, hwlt⟩ := hcss w hc
          rw [hcast] at hwlt
          exact segsOK_append w ((frames.length : ℚ) / fps) sfin.segments hok hew hwlt
    have hchain : GapChain 1 out := by
      rw [← h]
      exact mergeClose_gapChain 1 _ hsegsOK
    refine ⟨gapChain_pairwise 1 one_pos out hchain, gapChain_mem_lt 1 out hchain, ?_⟩
    exact mergeClose_id 1 out hchain

/-- Witness for C1 at a concrete five-frame stream (first present frame not
moving, then four moving frames; one backdated segment results). -/
theorem detect_segments_sorted_disjoint_merge_idempotent_witness :
    detect_human_segments (fun _ _ => (1 : ℚ)) ⟨1/100, 3, 10⟩ 10
      [some [(0, 0, 0)], some [(0, 0, 0)], some [(0, 0, 0)], some [(0, 0, 0)], some [(0, 0, 0)]]
      = some [(1/10, 1/2)] ∧
    (List.Pairwise (fun s t : Seg => s.1 < t.1 ∧ s.2 + 1 ≤ t.1) [((1 : ℚ)/10, (1 : ℚ)/2)] ∧
     (∀ s ∈ [((1 : ℚ)/10, (1 : ℚ)/2)], s.1 < s.2) ∧
     mergeCloseSegments [((1 : ℚ)/10, (1 : ℚ)/2)] 1 = [((1 : ℚ)/10, (1 : ℚ)/2)]) :=
  ⟨by with_unfolding_all rfl,
   detect_segments_sorted_disjoint_merge_idempotent (fun _ _ => (1 : ℚ)) ⟨1/100, 3, 10⟩ 10
     [some [(0, 0, 0)], some [(0, 0, 0)], some [(0, 0, 0)], some [(0, 0, 0)], some [(0, 0, 0)]]
     [(1/10, 1/2)] (by with_unfolding_all rfl)⟩

/-! ## Backdating (C3) -/

theorem detectLoop_keeps_open (d : List Landmark → List Landmark → ℚ)
    (p : DetectParams) (fps : ℚ) :
    ∀ (run : List (Option (List Landmark))) (i : ℕ) (s : DetectState) (w : ℚ),
    s.currentSegmentStart = some w →
    allMovingB d p.movementThreshold s.previousLandmarks run = true →
    (detectLoop d p fps run i s).currentSegmentStart = some w
  | [], _, _, _, hc, _ => hc
  | f :: rest, i, s, w, hc, hmov => by
      simp only [allMovingB, movingTrace, List.all_cons, Bool.and_eq_true, id] at hmov
      obtain ⟨hm, hrest⟩ := hmov
      refine detectLoop_keeps_open d p fps rest (i + 1) _ w ?_ ?_
      · simp only [processFrame, hm, updateFSM, if_true]
        simp [hc]
      · simp only [processFrame, hm, updateFSM, if_true]
        exact hrest

theorem detectLoop_accumulates (d : List Landmark → List Landmark → ℚ)
    (p : DetectParams) (fps : ℚ) :
    ∀ (run : List (Option (List Landmark))) (i : ℕ) (s : DetectState) (t0 : ℚ),
    s.currentSegmentStart = none →
    s.movementStartTime = some t0 →
    s.movementFrames < p.minMovingFrames →
    p.minMovingFrames ≤ s.movementFrames + run.length →
    allMovingB d p.movementThreshold s.previousLandmarks run = true →
    (detectLoop d p fps run i s).currentSegmentStart = some t0
  | [], _, _, _, _, _, hlt, hge, _ => by simp at hge; omega
  | f :: rest, i, s, t0, hc, ht, hlt, hge, hmov => by
      simp only [allMovingB, movingTrace, List.all_cons, Bool.and_eq_true, id] at hmov
      obtain ⟨hm, hrest⟩ := hmov
      by_cases hcross : p.minMovingFrames ≤ s.movementFrames + 1
      · refine detectLoop_keeps_open d p fps rest (i + 1) _ t0 ?_ ?_
        · simp only [processFrame, hm, updateFSM, if_true]
          simp [hc, hcross, ht]
        · simp only [processFrame, hm, updateFSM, if_true]
          exact hrest
      · refine detectLoop_accumulates d p fps rest (i + 1) _ t0 ?_ ?_ ?_ ?_ ?_
        · simp only [processFrame, hm, updateFSM, if_true]
          simp [hc, hcross]
        · simp only [processFrame, hm, updateFSM, if_true]
          simp [ht]
        · simp only [processFrame, hm, updateFSM, if_true]
          omega
        · simp only [processFrame, hm, updateFSM, if_true, List.length_cons] at hge ⊢
          omega
        · simp only [processFrame, hm, updateFSM, if_true]
          exact hrest

/-- C3: Starting idle with no pending moving run, a contiguous run of
`min_moving_frames` moving frames beginning at frame `k` opens a segment
whose start is frame `k`'s timestamp `k / fps` (backdated to the first
moving frame of the run), and a non-moving frame during accumulation
resets both the moving-frame counter and the remembered start. -/
theorem detector_backdates_segment_start (d : List Landmark → List Landmark → ℚ)
    (p : DetectParams) (fps : ℚ) :
    (∀ (k : ℕ) (run : List (Option (List Landmark))) (s : DetectState),
      s.currentSegmentStart = none → s.movementFrames = 0 →
      s.movementStartTime = none →
      run.length = p.minMovingFrames → 1 ≤ p.minMovingFrames →
      allMovingB d p.movementThreshold s.previousLandmarks run = true →
      (detectLoop d p fps run k s).currentSegmentStart = some ((k : ℚ) / fps)) ∧
    (∀ (i : ℕ) (f : Option (List Landmark)) (s : DetectState),
      s.currentSegmentStart = none →
      (classifyFrame d p.movementThreshold s.previousLandmarks f).1 = false →
      (processFrame d p fps i f s).movementFrames = 0 ∧
      (processFrame d p fps i f s).movementStartTime = none) := by
  constructor
  · intro k run s hc hmf hmt hlen hmin hmov
    cases run with
    | nil => simp only [List.length_nil] at hlen; omega
    | cons f rest => ?_
    simp only [allMovingB, movingTrace, List.all_cons, Bool.and_eq_true, id] at hmov
    obtain ⟨hm, hrest⟩ := hmov
    by_cases hcross : p.minMovingFrames ≤ s.movementFrames + 1
    · refine detectLoop_keeps_open d p fps rest (k + 1) _ ((k : ℚ) / fps) ?_ ?_
      · simp only [processFrame, hm, updateFSM, if_true]
        simp [hc, hcross, hmt]
      · simp only [processFrame, hm, updateFSM, if_true]
        exact hrest
    · refine detectLoop_accumulates d p fps rest (k + 1) _ ((k : ℚ) / fps) ?_ ?_ ?_ ?_ ?_
      · simp only [processFrame, hm, updateFSM, if_true]
        simp [hc, hcross]
      · simp only [processFrame, hm, updateFSM, if_true]
        simp [hmt]
      · simp only [processFrame, hm, updateFSM, if_true]
        omega
      · simp only [processFrame, hm, updateFSM, if_true]
        simp only [List.length_cons] at hlen
        omega
      · simp only [processFrame, hm, updateFSM, if_true]
        exact hrest
  · intro i f s hc hm
    simp only [processFrame, hm, updateFSM, Bool.false_eq_true, if_false, hc]
    exact ⟨trivial, trivial⟩

/-- Witness for C3: a three-frame moving run starting at frame 4 (with
`min_moving_frames = 3`) opens a segment starting at `4 / fps`. -/
theorem detector_backdates_segment_start_witness :
    allMovingB (fun _ _ => (1 : ℚ)) (1/2) (some [(0, 0, 0)])
      [some [(0, 0, 0)], some [(0, 0, 0)], some [(0, 0, 0)]] = true ∧
    (detectLoop (fun _ _ => (1 : ℚ)) ⟨1/2, 3, 10⟩ 10
      [some [(0, 0, 0)], some [(0, 0, 0)], some [(0, 0, 0)]] 4
      { initState with previousLandmarks := some [(0, 0, 0)] }).currentSegmentStart
      = some (((4 : ℕ) : ℚ) / 10) :=
  ⟨by with_unfolding_all rfl,
   (detector_backdates_segment_start (fun _ _ => (1 : ℚ)) ⟨1/2, 3, 10⟩ 10).1 4
     [some [(0, 0, 0)], some [(0, 0, 0)], some [(0, 0, 0)]]
     { initState with previousLandmarks := some [(0, 0, 0)] }
     rfl rfl rfl rfl (by decide) (by with_unfolding_all rfl)⟩

/-! ## Frame classification (C9) -/

/-- C9 (amended): for every *positive* `movement_threshold`, a frame is
classified moving only if the subject is present, the previous frame held
landmarks (so a movement score is computable), and the score is at least
the threshold; hence the first frame of the stream, and any frame right
after an absent frame, is never classified moving. -/
theorem moving_requires_presence_and_history
    (d : List Landmark → List Landmark → ℚ) (r : ℚ) (hr : 0 < r) :
    (∀ (prev : Option (List Landmark)) (f : Option (List Landmark)),
      (classifyFrame d r prev f).1 = true →
      optTruthy prev = true ∧
      ∃ l, f = some l ∧ r ≤ d l (prev.getD [])) ∧
    (∀ stream : List (Option (List Landmark)), stream ≠ [] →
      (movingTrace d r none stream).head? = some false) ∧
    (∀ (prev : Option (List Landmark)) (f : Option (List Landmark))
       (rest : List (Option (List Landmark))),
      (movingTrace d r prev (none :: f :: rest))[1]? = some false) := by
  have hbase : ∀ f : Option (List Landmark), (classifyFrame d r none f).1 = false := by
    intro f
    cases f with
    | none => rfl
    | some cur =>
        simp only [classifyFrame, optTruthy, if_false, decide_eq_false_iff_not]
        exact not_le.mpr hr
  refine ⟨?_, ?_, ?_⟩
  · intro prev f h
    cases f with
    | none => simp [classifyFrame] at h
    | some cur =>
        cases hp : optTruthy prev with
        | false =>
            simp only [classifyFrame, hp, if_false, decide_eq_true_eq] at h
            exact absurd h (not_le.mpr hr)
        | true =>
            simp only [classifyFrame, hp, if_true, decide_eq_true_eq] at h
            exact ⟨rfl, cur, rfl, h⟩
  · intro stream hne
    cases stream with
    | nil => exact absurd rfl hne
    | cons f rest => simp [movingTrace, hbase f]
  · intro prev f rest
    have h1 : movingTrace d r prev (none :: f :: rest) =
        false :: (classifyFrame d r none f).1 ::
          movingTrace d r (classifyFrame d r none f).2 rest := rfl
    rw [h1, hbase f]
    simp

/-- Counterexample to C9 as stated (quantified over *every* threshold):
with `movement_threshold = 0`, the very first present frame of the stream
is classified moving (the code compares the placeholder score `0.0`
against the threshold instead of requiring a computable score). -/
theorem moving_requires_presence_and_history_counterexample :
    (movingTrace (fun _ _ => (0 : ℚ)) 0 none [some [(0, 0, 0)]]).head? = some true := by
  decide

/-- Witness for the amended C9 at `threshold = 1`. -/
theorem moving_requires_presence_and_history_witness :
    (0 : ℚ) < 1 ∧
    (movingTrace (fun _ _ => (0 : ℚ)) 1 none [some [(0, 0, 0)]]).head? = some false :=
  ⟨one_pos,
   (moving_requires_presence_and_history (fun _ _ => (0 : ℚ)) 1 one_pos).2.1
     [some [(0, 0, 0)]] (by decide)⟩

/-! ## Clip planning (C4) -/

/-- C4: the planner maps each segment `(start, end)` to the buffered,
clamped window `(max 0 (start - buffer_before), min duration (end +
buffer_after))`, drops windows shorter than 1 second, preserves order
among survivors, every kept window lies in `[0, duration]` with length at
least 1, and zero surviving windows yields `none` rather than an error. -/
theorem planner_windows_clamped_filtered_ordered
    (duration bb ba : ℚ) (segments : List Seg) :
    planWindows duration bb ba segments =
      (segments.map fun s => (max 0 (s.1 - bb), min duration (s.2 + ba))).filter
        (fun w => !decide (w.2 - w.1 < 1)) ∧
    (∀ res, extract_and_compile duration bb ba segments = some res →
      res = planWindows duration bb ba segments ∧ res ≠ [] ∧
      (∀ w ∈ res, 1 ≤ w.2 - w.1 ∧ 0 ≤ w.1 ∧ w.1 < w.2 ∧ w.2 ≤ duration) ∧
      (List.Pairwise (fun a b : Seg => a.1 ≤ b.1) segments →
        List.Pairwise (fun a b : Seg => a.1 ≤ b.1) res)) ∧
    (planWindows duration bb ba segments = [] →
      extract_and_compile duration bb ba segments = none) := by
  have hmem : ∀ w ∈ planWindows duration bb ba segments,
      1 ≤ w.2 - w.1 ∧ 0 ≤ w.1 ∧ w.1 < w.2 ∧ w.2 ≤ duration := by
    intro w hw
    unfold planWindows at hw
    have hkeep := List.of_mem_filter hw
    have hw1 : w ∈ segments.map fun s => (max 0 (s.1 - bb), min duration (s.2 + ba)) :=
      List.mem_of_mem_filter hw
    obtain ⟨s, _, rfl⟩ := List.mem_map.mp hw1
    simp only [Bool.not_eq_true', decide_eq_false_iff_not, not_lt] at hkeep
    refine ⟨hkeep, le_max_left _ _, by linarith, min_le_left _ _⟩
  have hsorted : List.Pairwise (fun a b : Seg => a.1 ≤ b.1) segments →
      List.Pairwise (fun a b : Seg => a.1 ≤ b.1)
        (planWindows duration bb ba segments) := by
    intro hs
    unfold planWindows
    refine List.Pairwise.sublist (List.filter_sublist _) ?_
    rw [List.pairwise_map]
    refine hs.imp ?_
    intro a b hab
    exact max_le_max (le_refl 0) (by linarith)
  refine ⟨rfl, ?_, ?_⟩
  · intro res hres
    unfold extract_and_compile at hres
    by_cases hempty : segments.isEmpty
    · simp [hempty] at hres
    · simp only [hempty, Bool.false_eq_true, if_false] at hres
      by_cases hsub : (planWindows duration bb ba segments).isEmpty
      · simp [hsub] at hres
      · simp only [hsub, Bool.false_eq_true, if_false, Option.some.injEq] at hres
        subst hres
        refine ⟨rfl, ?_, hmem, hsorted⟩
        intro hnil
        rw [hnil] at hsub
        exact hsub rfl
  · intro hplan
    unfold extract_and_compile
    by_cases hempty : segments.isEmpty
    · simp [hempty]
    · simp [hempty, hplan]

/-- Witness for C4: the spec's own example, `duration = 10`, segment
`(1, 2)`, buffers `(2, 3)`, yielding the clamped window `(0, 5)`. -/
theorem planner_windows_clamped_filtered_ordered_witness :
    extract_and_compile 10 2 3 [((1 : ℚ), (2 : ℚ))] = some [((0 : ℚ), (5 : ℚ))] ∧
    (∀ w ∈ [((0 : ℚ), (5 : ℚ))], 1 ≤ w.2 - w.1 ∧ 0 ≤ w.1 ∧ w.1 < w.2 ∧ w.2 ≤ 10) :=
  ⟨by with_unfolding_all rfl,
   ((planner_windows_clamped_filtered_ordered 10 2 3 [((1 : ℚ), (2 : ℚ))]).2.1
     [((0 : ℚ), (5 : ℚ))] (by with_unfolding_all rfl)).2.2.1⟩

/-! ## Aggregate status derivation (C2) -/

/-- C2: `_derive_batch_status` is a total function of the item statuses
given by the first matching row of the table: empty ⇒ failed / "No files
provided."; all completed ⇒ completed; some failed with none processing
and none queued ⇒ failed; some processing ⇒ processing; otherwise queued. -/
theorem derive_batch_status_table (items : List Item) :
    (items = [] → deriveBatchStatus items = ("failed", "No files provided.")) ∧
    (items ≠ [] → countStatus items "completed" = items.length →
      deriveBatchStatus items =
        ("completed", msgAllCompleted (countStatus items "completed") items.length)) ∧
    (items ≠ [] → countStatus items "completed" ≠ items.length →
      0 < countStatus items "failed" → countStatus items "processing" = 0 →
      countStatus items "queued" = 0 →
      deriveBatchStatus items =
        ("failed", msgFailed (countStatus items "failed")
          (countStatus items "completed") items.length)) ∧
    (items ≠ [] → countStatus items "completed" ≠ items.length →
      ¬(0 < countStatus items "failed" ∧ countStatus items "processing" = 0 ∧
          countStatus items "queued" = 0) →
      0 < countStatus items "processing" →
      deriveBatchStatus items =
        ("processing", msgProcessing (countStatus items "processing") items.length
          (countStatus items "completed"))) ∧
    (items ≠ [] → countStatus items "completed" ≠ items.length →
      ¬(0 < countStatus items "failed" ∧ countStatus items "processing" = 0 ∧
          countStatus items "queued" = 0) →
      countStatus items "processing" = 0 →
      deriveBatchStatus items =
        ("queued", msgQueued (countStatus items "queued") items.length)) := by
  have hne : ∀ h : items ≠ [], items.isEmpty = false := by
    intro h
    cases items with
    | nil => exact absurd rfl h
    | cons a l => rfl
  refine ⟨?_, ?_, ?_, ?_, ?_⟩
  · intro h; subst h; rfl
  · intro h1 h2
    simp only [deriveBatchStatus, hne h1, Bool.false_eq_true, if_false, if_pos h2]
  · intro h1 h2 h3 h4 h5
    simp only [deriveBatchStatus, hne h1, Bool.false_eq_true, if_false, if_neg h2,
      if_pos (And.intro h3 (And.intro h4 h5))]
  · intro h1 h2 h3 h4
    simp only [deriveBatchStatus, hne h1, Bool.false_eq_true, if_false, if_neg h2,
      if_neg h3, if_pos h4]
  · intro h1 h2 h3 h4
    have h5 : ¬ 0 < countStatus items "processing" := by omega
    simp only [deriveBatchStatus, hne h1, Bool.false_eq_true, if_false, if_neg h2,
      if_neg h3, if_neg h5]

/-- Witness for C2 at `[completed, failed]`, yielding the "1/2 succeeded"
failed row. -/
theorem derive_batch_status_table_witness :
    deriveBatchStatus [[("file_id", "a"), ("status", "completed")],
      [("file_id", "b"), ("status", "failed")]] =
      ("failed", "1 file(s) failed (1/2 succeeded).") ∧
    msgFailed 1 1 2 = "1 file(s) failed (1/2 succeeded)." :=
  ⟨by
    have h := (derive_batch_status_table [[("file_id", "a"), ("status", "completed")],
      [("file_id", "b"), ("status", "failed")]]).2.2.1
      (by decide) (by decide) (by decide) (by decide) (by decide)
    rw [h]
    rfl,
   rfl⟩

/-! ## Dict and patch lemmas -/

theorem dictGet_cons {α : Type} (k0 k : String) (v0 : α) (d : List (String × α)) :
    dictGet ((k0, v0) :: d) k = if k0 = k then some v0 else dictGet d k := by
  by_cases h : k0 = k
  · simp [dictGet, List.find?, h]
  · simp [dictGet, List.find?, h]

theorem dictGet_dictSet_self {α : Type} (k : String) (v : α) :
    ∀ d : List (String × α), dictGet (dictSet d k v) k = some v
  | [] => by simp [dictSet, dictGet_cons]
  | (k0, v0) :: rest => by
      by_cases h : k0 = k
      · simp [dictSet, h, dictGet_cons]
      · simp [dictSet, h, dictGet_cons, dictGet_dictSet_self k v rest]

theorem dictGet_dictSet_other {α : Type} (k q : String) (v : α) (hne : q ≠ k) :
    ∀ d : List (String × α), dictGet (dictSet d k v) q = dictGet d q
  | [] => by simp [dictSet, dictGet_cons, Ne.symm hne]
  | (k0, v0) :: rest => by
      by_cases h : k0 = k
      · subst h
        simp [dictSet, dictGet_cons, Ne.symm hne]
      · simp [dictSet, h, dictGet_cons, dictGet_dictSet_other k q v hne rest]

theorem applyFields_not_provided {α : Type} (k : String) :
    ∀ (fields : List (String × Option α)) (d : List (String × α)),
    (∀ v, (k, some v) ∉ fields) →
    dictGet (applyFields d fields) k = dictGet d k
  | [], _, _ => rfl
  | (_, none) :: rest, d, h => by
      simp only [applyFields]
      exact applyFields_not_provided k rest d
        (fun v hv => h v (List.mem_cons_of_mem _ hv))
  | (k1, some v1) :: rest, d, h => by
      have hne : k ≠ k1 := by
        intro he
        subst he
        exact h v1 (List.mem_cons_self _ _)
      simp only [applyFields]
      rw [applyFields_not_provided k rest _
        (fun v hv => h v (List.mem_cons_of_mem _ hv))]
      exact dictGet_dictSet_other k1 k v1 hne d

theorem applyFields_insert_none {α : Type} (k : String) :
    ∀ (pre post : List (String × Option α)) (d : List (String × α)),
    applyFields d (pre ++ (k, none) :: post) = applyFields d (pre ++ post)
  | [], _, _ => rfl
  | (_, none) :: pre, post, d => by
      simp only [List.cons_append, applyFields]
      exact applyFields_insert_none k pre post d
  | (k1, some v1) :: pre, post, d => by
      simp only [List.cons_append, applyFields]
      exact applyFields_insert_none k pre post (dictSet d k1 v1)

theorem applyFields_get_cases {α : Type} (k : String) :
    ∀ (fields : List (String × Option α)) (d : List (String × α)),
    dictGet (applyFields d fields) k = dictGet d k ∨
    ∃ v, (k, some v) ∈ fields ∧ dictGet (applyFields d fields) k = some v
  | [], _ => Or.inl rfl
  | (_, none) :: rest, d => by
      simp only [applyFields]
      rcases applyFields_get_cases k rest d with h | ⟨v, hv, he⟩
      · exact Or.inl h
      · exact Or.inr ⟨v, List.mem_cons_of_mem _ hv, he⟩
  | (k1, some v1) :: rest, d => by
      simp only [applyFields]
      rcases applyFields_get_cases k rest (dictSet d k1 v1) with h | ⟨v, hv, he⟩
      · by_cases hk : k = k1
        · subst hk
          rw [h, dictGet_dictSet_self]
          exact Or.inr ⟨v1, List.mem_cons_self _ _, rfl⟩
        · rw [h, dictGet_dictSet_other k1 k v1 hk]
          exact Or.inl rfl
      · exact Or.inr ⟨v, List.mem_cons_of_mem _ hv, he⟩

theorem patchFirst_not_found (file_id : String)
    (fields : List (String × Option String)) :
    ∀ items : List Item, (∀ it ∈ items, dictGet it "file_id" ≠ some file_id) →
    patchFirst items file_id fields = (items, false)
  | [], _ => rfl
  | item :: rest, h => by
      simp only [patchFirst, if_neg (h item (List.mem_cons_self _ _))]
      rw [patchFirst_not_found file_id fields rest
        (fun it hit => h it (List.mem_cons_of_mem _ hit))]

theorem patchFirst_found (file_id : String)
    (fields : List (String × Option String)) :
    ∀ (items : List Item) (j : ℕ) (it : Item),
    items[j]? = some it →
    dictGet it "file_id" = some file_id →
    (∀ i, i < j → ∀ itj, items[i]? = some itj →
      dictGet itj "file_id" ≠ some file_id) →
    patchFirst items file_id fields = (items.set j (applyFields it fields), true)
  | [], j, it, hj, _, _ => by simp at hj
  | item :: rest, 0, it, hj, hfid, _ => by
      simp only [List.getElem?_cons_zero, Option.some.injEq] at hj
      subst hj
      simp [patchFirst, hfid]
  | item :: rest, j + 1, it, hj, hfid, hfirst => by
      have h0 : dictGet item "file_id" ≠ some file_id :=
        hfirst 0 (Nat.succ_pos j) item (by simp)
      simp only [List.getElem?_cons_succ] at hj
      simp only [patchFirst, if_neg h0]
      rw [patchFirst_found file_id fields rest j it hj hfid
        (fun i hi itj hjt => hfirst (i + 1) (Nat.succ_lt_succ hi) itj (by simpa using hjt))]
      rfl

/-! ## `update_item` frame conditions (C5) -/

/-- C5: `update_item` is a merge-patch of the first item whose `file_id`
matches: only the provided (non-`None`) fields are written onto that item,
every other field of that item, every other item position, and every job
field other than `items`/`status`/`message` are unchanged, and the job's
status and message are recomputed from the full patched item set; an
unknown `job_id` or an absent `file_id` returns not-found with the
persisted keyspace left exactly as it was. -/
theorem update_item_merge_patch_frame (st : Store) (job_id file_id : String)
    (fields : List (String × Option String)) :
    (∀ job j0 it0, get_job st job_id = some job →
      (jitems job)[j0]? = some it0 →
      dictGet it0 "file_id" = some file_id →
      (∀ i, i < j0 → ∀ itj, (jitems job)[i]? = some itj →
        dictGet itj "file_id" ≠ some file_id) →
      ∃ job2,
        update_item st job_id file_id fields =
          (dictSet st (jkey job_id) job2, some job2) ∧
        jitems job2 = (jitems job).set j0 (applyFields it0 fields) ∧
        dictGet job2 "status" = some (.s
          (deriveBatchStatus ((jitems job).set j0 (applyFields it0 fields))).1) ∧
        dictGet job2 "message" = some (.s
          (deriveBatchStatus ((jitems job).set j0 (applyFields it0 fields))).2) ∧
        (∀ k, k ≠ "items" → k ≠ "status" → k ≠ "message" →
          dictGet job2 k = dictGet job k) ∧
        (∀ i, i ≠ j0 →
          ((jitems job).set j0 (applyFields it0 fields))[i]? = (jitems job)[i]?)) ∧
    (∀ d : Item, ∀ k, (∀ v, (k, some v) ∉ fields) →
      dictGet (applyFields d fields) k = dictGet d k) ∧
    (get_job st job_id = none → update_item st job_id file_id fields = (st, none)) ∧
    (∀ job, get_job st job_id = some job →
      (∀ it ∈ jitems job, dictGet it "file_id" ≠ some file_id) →
      update_item st job_id file_id fields = (st, none)) := by
  refine ⟨?_, ?_, ?_, ?_⟩
  · intro job j0 it0 hget hj0 hfid hfirst
    refine ⟨dictSet (dictSet (dictSet job "items"
        (.arr ((jitems job).set j0 (applyFields it0 fields)))) "status"
        (.s (deriveBatchStatus ((jitems job).set j0 (applyFields it0 fields))).1))
        "message"
        (.s (deriveBatchStatus ((jitems job).set j0 (applyFields it0 fields))).2),
      ?_, ?_, ?_, ?_, ?_, ?_⟩
    · simp only [update_item, hget, updateItemCompute,
        patchFirst_found file_id fields (jitems job) j0 it0 hj0 hfid hfirst,
        if_true]
    · simp only [jitems, dictGet_dictSet_other "message" "items" _ (by decide),
        dictGet_dictSet_other "status" "items" _ (by decide),
        dictGet_dictSet_self]
    · rw [dictGet_dictSet_other "message" "status" _ (by decide),
        dictGet_dictSet_self]
    · rw [dictGet_dictSet_self]
    · intro k hk1 hk2 hk3
      rw [dictGet_dictSet_other "message" k _ hk3,
        dictGet_dictSet_other "status" k _ hk2,
        dictGet_dictSet_other "items" k _ hk1]
    · intro i hi
      exact List.getElem?_set_ne (Ne.symm hi)
  · intro d k hk
    exact applyFields_not_provided k fields d hk
  · intro hget
    simp only [update_item, hget]
  · intro job hget hno
    simp only [update_item, hget, updateItemCompute,
      patchFirst_not_found file_id fields (jitems job) hno,
      Bool.false_eq_true, if_false]

/-- Witness for C5: patching item "a" of a two-item job writes exactly the
provided fields on that item and leaves item "b" unchanged. -/
theorem update_item_merge_patch_frame_witness :
    ∃ job2,
      update_item (create_job [] "j" [[("file_id", "a"), ("status", "queued")],
          [("file_id", "b"), ("status", "queued")]] 0).1 "j" "a"
          [("status", some "completed"), ("message", some "done")] =
        (dictSet (create_job [] "j" [[("file_id", "a"), ("status", "queued")],
          [("file_id", "b"), ("status", "queued")]] 0).1 (jkey "j") job2, some job2) ∧
      jitems job2 = [[("file_id", "a"), ("status", "completed"), ("message", "done")],
        [("file_id", "b"), ("status", "queued")]] := by
  obtain ⟨job2, h1, h2, _⟩ :=
    (update_item_merge_patch_frame
      (create_job [] "j" [[("file_id", "a"), ("status", "queued")],
        [("file_id", "b"), ("status", "queued")]] 0).1 "j" "a"
      [("status", some "completed"), ("message", some "done")]).1
      (create_job [] "j" [[("file_id", "a"), ("status", "queued")],
        [("file_id", "b"), ("status", "queued")]] 0).2 0
      [("file_id", "a"), ("status", "queued")]
      (by decide) (by decide) (by decide)
      (fun i hi => absurd hi (Nat.not_lt_zero i))
  refine ⟨job2, h1, ?_⟩
  rw [h2]
  decide

/-! ## Derived status invariant (C6) -/

/-- C6 (amended): after a successful `update_item` the stored job's status
and message equal the aggregate derivation over its stored items, and
`update_job` likewise recomputes them whenever `"items"` is among the
provided field names; but `create_job` stores the constants
`"queued"`/`"Queued"` (not the derivation, whose message differs), and
`update_job` given a direct `status`/`message` field without `items`
writes it as-is, so those two paths can leave the stored status and
message different from the derivation over the stored items. -/
theorem status_message_recomputed_on_update :
    (∀ (st st2 : Store) (job_id file_id : String)
       (fields : List (String × Option String)) (job2 : JDict),
      update_item st job_id file_id fields = (st2, some job2) →
      get_job st2 job_id = some job2 ∧
      dictGet job2 "status" = some (.s (deriveBatchStatus (jitems job2)).1) ∧
      dictGet job2 "message" = some (.s (deriveBatchStatus (jitems job2)).2)) ∧
    (∀ (st st2 : Store) (job_id : String)
       (fields : List (String × Option JVal)) (job2 : JDict),
      update_job st job_id fields = (st2, some job2) →
      (fields.any fun kv => kv.1 = "items") = true →
      get_job st2 job_id = some job2 ∧
      dictGet job2 "status" = some (.s (deriveBatchStatus (jitems job2)).1) ∧
      dictGet job2 "message" = some (.s (deriveBatchStatus (jitems job2)).2)) ∧
    (∀ (st : Store) (job_id : String) (items : List Item) (now : ℚ),
      dictGet (create_job st job_id items now).2 "status" = some (.s "queued") ∧
      dictGet (create_job st job_id items now).2 "message" = some (.s "Queued") ∧
      get_job (create_job st job_id items now).1 job_id =
        some (create_job st job_id items now).2) := by
  refine ⟨?_, ?_, ?_⟩
  · intro st st2 job_id file_id fields job2 heq
    cases hget : get_job st job_id with
    | none => simp only [update_item, hget] at heq; simp at heq
    | some job =>
        simp only [update_item, hget] at heq
        cases hc : updateItemCompute job file_id fields with
        | none => rw [hc] at heq; simp at heq
        | some j =>
            rw [hc] at heq
            have heq3 : (dictSet st (jkey job_id) j, some j) = (st2, some job2) := heq
            simp only [Prod.mk.injEq, Option.some.injEq] at heq3
            obtain ⟨hst, hjob⟩ := heq3
            subst hst
            subst hjob
            simp only [updateItemCompute] at hc
            by_cases hr : (patchFirst (jitems job) file_id fields).2 = true
            · rw [if_pos hr] at hc
              simp only [Option.some.injEq] at hc
              subst hc
              have hitems : jitems (dictSet (dictSet (dictSet job "items"
                  (JVal.arr (patchFirst (jitems job) file_id fields).1)) "status"
                  (JVal.s (deriveBatchStatus
                    (patchFirst (jitems job) file_id fields).1).1))
                  "message"
                  (JVal.s (deriveBatchStatus
                    (patchFirst (jitems job) file_id fields).1).2)) =
                  (patchFirst (jitems job) file_id fields).1 := by
                simp only [jitems,
                  dictGet_dictSet_other "message" "items" _ (by decide),
                  dictGet_dictSet_other "status" "items" _ (by decide),
                  dictGet_dictSet_self]
              refine ⟨?_, ?_, ?_⟩
              · rw [get_job, dictGet_dictSet_self]
              · rw [hitems, dictGet_dictSet_other "message" "status" _ (by decide),
                  dictGet_dictSet_self]
              · rw [hitems, dictGet_dictSet_self]
            · rw [if_neg hr] at hc
              exact Option.noConfusion hc
  · intro st st2 job_id fields job2 heq hany
    cases hget : get_job st job_id with
    | none => simp only [update_job, hget] at heq; simp at heq
    | some job =>
        simp only [update_job, hget] at heq
        rw [if_pos hany] at heq
        simp only [Prod.mk.injEq, Option.some.injEq] at heq
        obtain ⟨hst, hjob⟩ := heq
        subst hst
        subst hjob
        have hitems : jitems (dictSet (dictSet (applyFields job fields) "status"
            (JVal.s (deriveBatchStatus (jitems (applyFields job fields))).1)) "message"
            (JVal.s (deriveBatchStatus (jitems (applyFields job fields))).2)) =
            jitems (applyFields job fields) := by
          simp only [jitems, dictGet_dictSet_other "message" "items" _ (by decide),
            dictGet_dictSet_other "status" "items" _ (by decide)]
        refine ⟨?_, ?_, ?_⟩
        · rw [get_job, dictGet_dictSet_self]
        · rw [hitems, dictGet_dictSet_other "message" "status" _ (by decide),
            dictGet_dictSet_self]
        · rw [hitems, dictGet_dictSet_self]
  · intro st job_id items now
    refine ⟨?_, ?_, ?_⟩
    · rw [create_job]
      rw [dictGet_cons, if_neg (by decide), dictGet_cons, if_pos rfl]
    · rw [create_job]
      rw [dictGet_cons, if_neg (by decide), dictGet_cons, if_neg (by decide),
        dictGet_cons, if_pos rfl]
    · rw [create_job, get_job, dictGet_dictSet_self]

/-- Counterexample for C6 as stated: `create_job` stores the constant
message "Queued" although the derivation over its (empty) item list says
"No files provided.", and `update_job` with a direct `status` field makes
the stored status diverge from the derivation over the stored items. -/
theorem status_message_recomputed_on_update_counterexample :
    (dictGet (create_job [] "j" [] 0).2 "message" = some (.s "Queued") ∧
     (deriveBatchStatus (jitems (create_job [] "j" [] 0).2)).2 = "No files provided." ∧
     dictGet (create_job [] "j" [] 0).2 "message" ≠
       some (.s (deriveBatchStatus (jitems (create_job [] "j" [] 0).2)).2)) ∧
    (dictGet ((update_job (create_job [] "j"
        [[("file_id", "a"), ("status", "queued")]] 0).1 "j"
        [("status", some (JVal.s "completed"))]).2.getD []) "status" =
      some (.s "completed") ∧
     (deriveBatchStatus (jitems ((update_job (create_job [] "j"
        [[("file_id", "a"), ("status", "queued")]] 0).1 "j"
        [("status", some (JVal.s "completed"))]).2.getD []))).1 = "queued" ∧
     dictGet ((update_job (create_job [] "j"
        [[("file_id", "a"), ("status", "queued")]] 0).1 "j"
        [("status", some (JVal.s "completed"))]).2.getD []) "status" ≠
       some (.s (deriveBatchStatus (jitems ((update_job (create_job [] "j"
        [[("file_id", "a"), ("status", "queued")]] 0).1 "j"
        [("status", some (JVal.s "completed"))]).2.getD []))).1)) := by
  decide

/-- Witness for the amended C6: a successful `update_item` on a concrete
one-item job leaves status and message equal to the derivation. -/
theorem status_message_recomputed_on_update_witness :
    get_job (update_item (create_job [] "j"
        [[("file_id", "a"), ("status", "queued")]] 0).1 "j" "a"
        [("status", some "completed")]).1 "j" =
      some ((update_item (create_job [] "j"
        [[("file_id", "a"), ("status", "queued")]] 0).1 "j" "a"
        [("status", some "completed")]).2.getD []) ∧
    dictGet ((update_item (create_job [] "j"
        [[("file_id", "a"), ("status", "queued")]] 0).1 "j" "a"
        [("status", some "completed")]).2.getD []) "status" =
      some (.s (deriveBatchStatus (jitems ((update_item (create_job [] "j"
        [[("file_id", "a"), ("status", "queued")]] 0).1 "j" "a"
        [("status", some "completed")]).2.getD []))).1) := by
  have h := (status_message_recomputed_on_update).1
    (create_job [] "j" [[("file_id", "a"), ("status", "queued")]] 0).1
    (update_item (create_job [] "j"
      [[("file_id", "a"), ("status", "queued")]] 0).1 "j" "a"
      [("status", some "completed")]).1 "j" "a"
    [("status", some "completed")]
    ((update_item (create_job [] "j"
      [[("file_id", "a"), ("status", "queued")]] 0).1 "j" "a"
      [("status", some "completed")]).2.getD [])
    (by decide)
  exact ⟨h.1, h.2.1⟩

/-! ## `None`-valued fields (C10) -/

theorem patchFirst_insert_none (file_id k : String)
    (pre post : List (String × Option String)) :
    ∀ items : List Item,
    patchFirst items file_id (pre ++ (k, none) :: post) =
      patchFirst items file_id (pre ++ post)
  | [] => rfl
  | item :: rest => by
      by_cases h : dictGet item "file_id" = some file_id
      · simp [patchFirst, h, applyFields_insert_none]
      · simp [patchFirst, h, patchFirst_insert_none file_id k pre post rest]

theorem updateItemCompute_insert_none (job : JDict) (file_id k : String)
    (pre post : List (String × Option String)) :
    updateItemCompute job file_id (pre ++ (k, none) :: post) =
      updateItemCompute job file_id (pre ++ post) := by
  simp only [updateItemCompute, patchFirst_insert_none]

/-- C10 (amended): a field provided as `None` is never written: inserting an
explicitly-`None` field anywhere leaves `applyFields` unchanged, a lookup
after a patch is either the old value or a provided non-`None` value (so no
stored field is ever cleared or set to null), and `update_item` — and
`update_job` for any key other than `"items"` — cannot distinguish an
explicitly-null field from an omitted one.  (For `update_job` the key
`"items"` is the exception: its mere presence, even with value `None`,
triggers the status/message recomputation.) -/
theorem none_valued_fields_are_skipped :
    (∀ (α : Type) (d : List (String × α)) (pre post : List (String × Option α))
       (k : String),
      applyFields d (pre ++ (k, none) :: post) = applyFields d (pre ++ post)) ∧
    (∀ (α : Type) (d : List (String × α)) (fields : List (String × Option α))
       (k : String),
      dictGet (applyFields d fields) k = dictGet d k ∨
      ∃ v, (k, some v) ∈ fields ∧ dictGet (applyFields d fields) k = some v) ∧
    (∀ (st : Store) (job_id file_id : String)
       (pre post : List (String × Option String)) (k : String),
      update_item st job_id file_id (pre ++ (k, none) :: post) =
        update_item st job_id file_id (pre ++ post)) ∧
    (∀ (st : Store) (job_id : String) (pre post : List (String × Option JVal))
       (k : String), k ≠ "items" →
      update_job st job_id (pre ++ (k, none) :: post) =
        update_job st job_id (pre ++ post)) := by
  refine ⟨?_, ?_, ?_, ?_⟩
  · intro α d pre post k
    exact applyFields_insert_none k pre post d
  · intro α d fields k
    exact applyFields_get_cases k fields d
  · intro st job_id file_id pre post k
    cases hget : get_job st job_id with
    | none => simp only [update_item, hget]
    | some job => simp only [update_item, hget, updateItemCompute_insert_none]
  · intro st job_id pre post k hk
    cases hget : get_job st job_id with
    | none => simp only [update_job, hget]
    | some job =>
        have hany : ((pre ++ (k, none) :: post).any fun kv => kv.1 = "items") =
            ((pre ++ post).any fun kv => kv.1 = "items") := by
          simp [List.any_append, List.any_cons, hk]
        simp only [update_job, hget, applyFields_insert_none, hany]

/-- Counterexample to C10 as stated: for `update_job`, an explicitly-null
`items` field is distinguishable from an omitted one — its presence alone
triggers the status/message recomputation, producing a different stored
record. -/
theorem none_valued_fields_are_skipped_counterexample :
    update_job (create_job [] "j" [[("file_id", "a"), ("status", "queued")]] 0).1
        "j" [("items", none)] ≠
      update_job (create_job [] "j" [[("file_id", "a"), ("status", "queued")]] 0).1
        "j" [] := by
  decide

/-- Witness for the amended C10: a `None`-valued `status` field passed to
`update_job` is identical to omitting it. -/
theorem none_valued_fields_are_skipped_witness :
    "status" ≠ "items" ∧
    update_job (create_job [] "j" [] 0).1 "j"
        [("x", some (JVal.s "y")), ("status", none)] =
      update_job (create_job [] "j" [] 0).1 "j" [("x", some (JVal.s "y"))] :=
  ⟨by decide,
   none_valued_fields_are_skipped.2.2.2 (create_job [] "j" [] 0).1 "j"
     [("x", some (JVal.s "y"))] [] "status" (by decide)⟩

/-! ## The `update_item` read-modify-write race (C8) -/

/-- C8: the code's `update_item` is a plain get-then-set with no lock or
version check.  Under the interleaving read-A, read-B, write-A, write-B of
two concurrent `update_item` calls for the distinct file_ids "a" and "b"
of the same job, B's write (based on its stale snapshot) overwrites A's:
item "a" is back to "queued" in the final record, so A's update is lost —
while the sequential composition of the same two calls keeps both.  This
contradicts the claimed atomic read-modify-write. -/
theorem update_item_naive_rmw_loses_concurrent_update :
    dictGet ((jitems ((get_job
        (dictSet (dictSet (create_job [] "j"
            [[("file_id", "a"), ("status", "queued")],
             [("file_id", "b"), ("status", "queued")]] 0).1
          (jkey "j")
          ((updateItemCompute ((get_job (create_job [] "j"
              [[("file_id", "a"), ("status", "queued")],
               [("file_id", "b"), ("status", "queued")]] 0).1 "j").getD [])
            "a" [("status", some "completed")]).getD []))
          (jkey "j")
          ((updateItemCompute ((get_job (create_job [] "j"
              [[("file_id", "a"), ("status", "queued")],
               [("file_id", "b"), ("status", "queued")]] 0).1 "j").getD [])
            "b" [("status", some "completed")]).getD []))
        "j").getD []))[0]?.getD []) "status" = some "queued" ∧
    dictGet ((jitems ((get_job
        (update_item (update_item (create_job [] "j"
            [[("file_id", "a"), ("status", "queued")],
             [("file_id", "b"), ("status", "queued")]] 0).1
          "j" "a" [("status", some "completed")]).1
          "j" "b" [("status", some "completed")]).1
        "j").getD []))[0]?.getD []) "status" = some "completed" ∧
    dictGet ((jitems ((get_job
        (update_item (update_item (create_job [] "j"
            [[("file_id", "a"), ("status", "queued")],
             [("file_id", "b"), ("status", "queued")]] 0).1
          "j" "a" [("status", some "completed")]).1
          "j" "b" [("status", some "completed")]).1
        "j").getD []))[1]?.getD []) "status" = some "completed" := by
  decide

/-! ## Task boundary error handling (C7): chaining lemmas -/

theorem exists_first_match (P : Item → Prop) :
    ∀ items : List Item, (∃ it ∈ items, P it) →
    ∃ (j : ℕ) (it : Item), items[j]? = some it ∧ P it ∧
      ∀ i, i < j → ∀ it2, items[i]? = some it2 → ¬P it2
  | [], h => absurd h (by simp)
  | item :: rest, h => by
      by_cases hp : P item
      · exact ⟨0, item, by simp, hp, fun i hi => absurd hi (Nat.not_lt_zero i)⟩
      · have hrest : ∃ it ∈ rest, P it := by
          obtain ⟨it, hit, hPit⟩ := h
          rcases List.mem_cons.mp hit with rfl | hmem
          · exact absurd hPit hp
          · exact ⟨it, hmem, hPit⟩
        obtain ⟨j, it, hj, hPit, hfirst⟩ := exists_first_match P rest hrest
        refine ⟨j + 1, it, by simpa using hj, hPit, ?_⟩
        intro i hi it2 hit2
        cases i with
        | zero =>
            simp only [List.getElem?_cons_zero, Option.some.injEq] at hit2
            subst hit2
            exact hp
        | succ i => exact hfirst i (by omega) it2 (by simpa using hit2)

theorem update_item_step (st : Store) (job_id file_id : String)
    (fields : List (String × Option String)) (job : JDict)
    (hget : get_job st job_id = some job)
    (hsome : ∃ it ∈ jitems job, dictGet it "file_id" = some file_id) :
    ∃ (job2 : JDict) (j : ℕ) (it : Item),
      get_job (update_item st job_id file_id fields).1 job_id = some job2 ∧
      (jitems job)[j]? = some it ∧
      dictGet it "file_id" = some file_id ∧
      jitems job2 = (jitems job).set j (applyFields it fields) := by
  obtain ⟨j, it, hj, hfid, hfirst⟩ :=
    exists_first_match (fun it => dictGet it "file_id" = some file_id) (jitems job) hsome
  have hpf := patchFirst_found file_id fields (jitems job) j it hj hfid hfirst
  refine ⟨dictSet (dictSet (dictSet job "items"
      (.arr ((jitems job).set j (applyFields it fields)))) "status"
      (.s (deriveBatchStatus ((jitems job).set j (applyFields it fields))).1))
      "message"
      (.s (deriveBatchStatus ((jitems job).set j (applyFields it fields))).2),
    j, it, ?_, hj, hfid, ?_⟩
  · simp only [update_item, hget, updateItemCompute, hpf, if_true]
    rw [get_job, dictGet_dictSet_self]
  · simp only [jitems, dictGet_dictSet_other "message" "items" _ (by decide),
      dictGet_dictSet_other "status" "items" _ (by decide), dictGet_dictSet_self]

/-- The consequences of one well-formed `update_item` call used when
chaining the task's successive status updates: the job survives, the item
count is unchanged, non-matching positions are untouched, some matching
item exists again afterwards, and the patched position holds the patched
item. -/
theorem update_item_chain_facts (st : Store) (job_id file_id : String)
    (fields : List (String × Option String)) (job : JDict)
    (hget : get_job st job_id = some job)
    (hsome : ∃ it ∈ jitems job, dictGet it "file_id" = some file_id)
    (hnofid : ∀ v, ("file_id", some v) ∉ fields) :
    ∃ job2,
      get_job (update_item st job_id file_id fields).1 job_id = some job2 ∧
      (jitems job2).length = (jitems job).length ∧
      (∀ (i : ℕ) (it2 : Item), (jitems job)[i]? = some it2 →
        dictGet it2 "file_id" ≠ some file_id → (jitems job2)[i]? = some it2) ∧
      (∃ it2 ∈ jitems job2, dictGet it2 "file_id" = some file_id) ∧
      (∃ (j : ℕ) (it : Item), (jitems job)[j]? = some it ∧
        dictGet it "file_id" = some file_id ∧
        (jitems job2)[j]? = some (applyFields it fields)) := by
  obtain ⟨job2, j, it, hget2, hj, hfid, hits⟩ :=
    update_item_step st job_id file_id fields job hget hsome
  obtain ⟨hlt, _⟩ := List.getElem?_eq_some_iff.mp hj
  have hpatched : (jitems job2)[j]? = some (applyFields it fields) := by
    rw [hits]
    exact List.getElem?_set_self hlt
  have hfid2 : dictGet (applyFields it fields) "file_id" = some file_id := by
    rw [applyFields_not_provided "file_id" fields it hnofid]
    exact hfid
  refine ⟨job2, hget2, ?_, ?_, ?_, j, it, hj, hfid, hpatched⟩
  · rw [hits, List.length_set]
  · intro i it2 hi hne
    rw [hits]
    have hij : i ≠ j := by
      intro he
      subst he
      rw [hi] at hj
      simp only [Option.some.injEq] at hj
      subst hj
      exact hne hfid
    rw [List.getElem?_set_ne (Ne.symm hij)]
    exact hi
  · exact ⟨applyFields it fields, List.getElem?_mem hpatched, hfid2⟩

/-- A patch that sets `status` and `message` leaves `file_id` unchanged and
stores exactly the given status and message. -/
theorem patched_item_failed (x : Item) (file_id s m : String)
    (hfid : dictGet x "file_id" = some file_id) :
    dictGet (applyFields x [("status", some s), ("message", some m)]) "file_id"
      = some file_id ∧
    dictGet (applyFields x [("status", some s), ("message", some m)]) "status"
      = some s ∧
    dictGet (applyFields x [("status", some s), ("message", some m)]) "message"
      = some m := by
  refine ⟨?_, ?_, ?_⟩
  · rw [applyFields_not_provided "file_id" _ x (by intro v hv; simp at hv)]
    exact hfid
  · show dictGet (dictSet (dictSet x "status" s) "message" m) "status" = some s
    rw [dictGet_dictSet_other "message" "status" _ (by decide), dictGet_dictSet_self]
  · show dictGet (dictSet (dictSet x "status" s) "message" m) "message" = some m
    rw [dictGet_dictSet_self]

/-- C7: for every single-file task run (modelling each collaborator's
outcome, where `.error e` is an exception with description `e`), the task
converts failures of the prepare and detect steps, and the zero-segments
outcome, into an update marking this item failed with the corresponding
message; the job record survives and every sibling item (any position
whose `file_id` differs) is byte-for-byte unchanged — a failure never
aborts sibling items or the job record. -/
theorem task_errors_absorbed_as_item_failure
    (st : Store) (job_id file_id : String)
    (prepareRes : Except String String) (detectRes : Except String (List Seg))
    (compileRes : Except String (Option String)) (job : JDict)
    (hget : get_job st job_id = some job)
    (hsome : ∃ it ∈ jitems job, dictGet it "file_id" = some file_id) :
    ∃ jobf,
      get_job (process_video_file st job_id file_id prepareRes detectRes compileRes)
        job_id = some jobf ∧
      (jitems jobf).length = (jitems job).length ∧
      (∀ (i : ℕ) (it2 : Item), (jitems job)[i]? = some it2 →
        dictGet it2 "file_id" ≠ some file_id → (jitems jobf)[i]? = some it2) ∧
      (∀ e, prepareRes = .error e →
        ∃ itf ∈ jitems jobf, dictGet itf "file_id" = some file_id ∧
          dictGet itf "status" = some "failed" ∧ dictGet itf "message" = some e) ∧
      (∀ p e, prepareRes = .ok p → detectRes = .error e →
        ∃ itf ∈ jitems jobf, dictGet itf "file_id" = some file_id ∧
          dictGet itf "status" = some "failed" ∧ dictGet itf "message" = some e) ∧
      (∀ p, prepareRes = .ok p → detectRes = .ok [] →
        ∃ itf ∈ jitems jobf, dictGet itf "file_id" = some file_id ∧
          dictGet itf "status" = some "failed" ∧
          dictGet itf "message" = some "No moving humans detected.") ∧
      (∀ p segs e, prepareRes = .ok p → detectRes = .ok segs → segs ≠ [] →
        compileRes = .error e →
        ∃ itf ∈ jitems jobf, dictGet itf "file_id" = some file_id ∧
          dictGet itf "status" = some "failed" ∧ dictGet itf "message" = some e) := by
  obtain ⟨job1, hget1, hlen1, hsib1, hsome1, _⟩ :=
    update_item_chain_facts st job_id file_id
      [("status", some "processing"), ("message", some "Preparing video...")]
      job hget hsome (by intro v hv; simp at hv)
  cases prepareRes with
  | error e =>
      simp only [process_video_file]
      obtain ⟨job2, hget2, hlen2, hsib2, _, j, it, hj, hfid, hpatch⟩ :=
        update_item_chain_facts _ job_id file_id
          [("status", some "failed"), ("message", some e)]
          job1 hget1 hsome1 (by intro v hv; simp at hv)
      obtain ⟨hf1, hf2, hf3⟩ := patched_item_failed it file_id "failed" e hfid
      refine ⟨job2, hget2, hlen2.trans hlen1,
        fun i it2 hi hne => hsib2 i it2 (hsib1 i it2 hi hne) hne,
        ?_, ?_, ?_, ?_⟩
      · intro e2 he
        simp only [Except.error.injEq] at he
        subst he
        exact ⟨applyFields it [("status", some "failed"), ("message", some e)],
          List.getElem?_mem hpatch, hf1, hf2, hf3⟩
      · exact fun p e2 h _ => Except.noConfusion h
      · exact fun p h _ => Except.noConfusion h
      · exact fun p segs e2 h _ _ _ => Except.noConfusion h
  | ok p0 =>
      obtain ⟨job2, hget2, hlen2, hsib2, hsome2, _⟩ :=
        update_item_chain_facts _ job_id file_id
          [("message", some "Detecting moving humans...")]
          job1 hget1 hsome1 (by intro v hv; simp at hv)
      cases detectRes with
      | error e =>
          simp only [process_video_file]
          obtain ⟨job3, hget3, hlen3, hsib3, _, j, it, hj, hfid, hpatch⟩ :=
            update_item_chain_facts _ job_id file_id
              [("status", some "failed"), ("message", some e)]
              job2 hget2 hsome2 (by intro v hv; simp at hv)
          obtain ⟨hf1, hf2, hf3⟩ := patched_item_failed it file_id "failed" e hfid
          refine ⟨job3, hget3, (hlen3.trans hlen2).trans hlen1,
            fun i it2 hi hne => hsib3 i it2 (hsib2 i it2 (hsib1 i it2 hi hne) hne) hne,
            ?_, ?_, ?_, ?_⟩
          · exact fun e2 h => Except.noConfusion h
          · intro p e2 _ hdet
            simp only [Except.error.injEq] at hdet
            subst hdet
            exact ⟨applyFields it [("status", some "failed"), ("message", some e)],
              List.getElem?_mem hpatch, hf1, hf2, hf3⟩
          · exact fun p _ h => Except.noConfusion h
          · exact fun p segs e2 _ h _ _ => Except.noConfusion h
      | ok segs =>
          cases segs with
          | nil =>
              simp only [process_video_file, List.isEmpty_nil, if_true]
              obtain ⟨job3, hget3, hlen3, hsib3, _, j, it, hj, hfid, hpatch⟩ :=
                update_item_chain_facts _ job_id file_id
                  [("status", some "failed"),
                   ("message", some "No moving humans detected.")]
                  job2 hget2 hsome2 (by intro v hv; simp at hv)
              obtain ⟨hf1, hf2, hf3⟩ :=
                patched_item_failed it file_id "failed" "No moving humans detected." hfid
              refine ⟨job3, hget3, (hlen3.trans hlen2).trans hlen1,
                fun i it2 hi hne =>
                  hsib3 i it2 (hsib2 i it2 (hsib1 i it2 hi hne) hne) hne,
                ?_, ?_, ?_, ?_⟩
              · exact fun e2 h => Except.noConfusion h
              · exact fun p e2 _ h => Except.noConfusion h
              · intro p _ _
                exact ⟨applyFields it [("status", some "failed"),
                    ("message", some "No moving humans detected.")],
                  List.getElem?_mem hpatch, hf1, hf2, hf3⟩
              · intro p segs2 e2 _ hdet hne _
                simp only [Except.ok.injEq] at hdet
                exact absurd hdet.symm hne
          | cons s0 ss =>
              obtain ⟨job3, hget3, hlen3, hsib3, hsome3, _⟩ :=
                update_item_chain_facts _ job_id file_id
                  [("message", some s!"Found {(s0 :: ss).length} segments. Compiling...")]
                  job2 hget2 hsome2 (by intro v hv; simp at hv)
              cases compileRes with
              | error e =>
                  simp only [process_video_file, List.isEmpty_cons,
                    Bool.false_eq_true, if_false]
                  obtain ⟨job4, hget4, hlen4, hsib4, _, j, it, hj, hfid, hpatch⟩ :=
                    update_item_chain_facts _ job_id file_id
                      [("status", some "failed"), ("message", some e)]
                      job3 hget3 hsome3 (by intro v hv; simp at hv)
                  obtain ⟨hf1, hf2, hf3⟩ := patched_item_failed it file_id "failed" e hfid
                  refine ⟨job4, hget4,
                    ((hlen4.trans hlen3).trans hlen2).trans hlen1,
                    fun i it2 hi hne => hsib4 i it2
                      (hsib3 i it2 (hsib2 i it2 (hsib1 i it2 hi hne) hne) hne) hne,
                    ?_, ?_, ?_, ?_⟩
                  · exact fun e2 h => Except.noConfusion h
                  · exact fun p e2 _ h => Except.noConfusion h
                  · exact fun p _ h => by simp at h
                  · intro p segs2 e2 _ _ _ hcomp
                    simp only [Except.error.injEq] at hcomp
                    subst hcomp
                    exact ⟨applyFields it [("status", some "failed"), ("message", some e)],
                      List.getElem?_mem hpatch, hf1, hf2, hf3⟩
              | ok r =>
                  cases r with
                  | none =>
                      simp only [process_video_file, List.isEmpty_cons,
                        Bool.false_eq_true, if_false]
                      obtain ⟨job4, hget4, hlen4, hsib4, _, _, _, _, _, _⟩ :=
                        update_item_chain_facts _ job_id file_id
                          [("status", some "failed"),
                           ("message", some "Failed to compile video.")]
                          job3 hget3 hsome3 (by intro v hv; simp at hv)
                      refine ⟨job4, hget4,
                        ((hlen4.trans hlen3).trans hlen2).trans hlen1,
                        fun i it2 hi hne => hsib4 i it2
                          (hsib3 i it2 (hsib2 i it2 (hsib1 i it2 hi hne) hne) hne) hne,
                        ?_, ?_, ?_, ?_⟩
                      · exact fun e2 h => Except.noConfusion h
                      · exact fun p e2 _ h => Except.noConfusion h
                      · exact fun p _ h => by simp at h
                      · exact fun p segs2 e2 _ _ _ h => Except.noConfusion h
                  | some rp =>
                      simp only [process_video_file, List.isEmpty_cons,
                        Bool.false_eq_true, if_false]
                      obtain ⟨job4, hget4, hlen4, hsib4, _, _, _, _, _, _⟩ :=
                        update_item_chain_facts _ job_id file_id
                          [("status", some "completed"),
                           ("message", some "Processing complete!"),
                           ("download_url", some s!"/api/download/{job_id}/{file_id}"),
                           ("result_path", some rp)]
                          job3 hget3 hsome3 (by intro v hv; simp at hv)
                      refine ⟨job4, hget4,
                        ((hlen4.trans hlen3).trans hlen2).trans hlen1,
                        fun i it2 hi hne => hsib4 i it2
                          (hsib3 i it2 (hsib2 i it2 (hsib1 i it2 hi hne) hne) hne) hne,
                        ?_, ?_, ?_, ?_⟩
                      · exact fun e2 h => Except.noConfusion h
                      · exact fun p e2 _ h => Except.noConfusion h
                      · exact fun p _ h => by simp at h
                      · exact fun p segs2 e2 _ _ _ h => Except.noConfusion h

/-- Witness for C7: a prepare-step exception "boom" on a two-item job is
rendered as item "a" failed with message "boom". -/
theorem task_errors_absorbed_as_item_failure_witness :
    ∃ jobf itf,
      get_job (process_video_file (create_job [] "j"
          [[("file_id", "a"), ("status", "queued")],
           [("file_id", "b"), ("status", "queued")]] 0).1 "j" "a"
          (.error "boom") (.ok []) (.ok none)) "j" = some jobf ∧
      itf ∈ jitems jobf ∧ dictGet itf "file_id" = some "a" ∧
      dictGet itf "status" = some "failed" ∧ dictGet itf "message" = some "boom" := by
  obtain ⟨jobf, hgetf, _, _, hfail, _⟩ :=
    task_errors_absorbed_as_item_failure (create_job [] "j"
        [[("file_id", "a"), ("status", "queued")],
         [("file_id", "b"), ("status", "queued")]] 0).1 "j" "a"
      (.error "boom") (.ok []) (.ok none)
      (create_job [] "j" [[("file_id", "a"), ("status", "queued")],
        [("file_id", "b"), ("status", "queued")]] 0).2
      (by decide) (by decide)
  obtain ⟨itf, hmem, h1, h2, h3⟩ := hfail "boom" rfl
  exact ⟨jobf, itf, hgetf, hmem, h1, h2, h3⟩

end SkateCropper
